import Mathlib

/-
Verification of the polar-mcp-proxy schema normalizer and request router.

The TypeScript source operates on dynamically typed JSON-RPC payloads, so we
embed JavaScript runtime values as the inductive type `JSVal`.  A JavaScript
object is an ordered association list of string keys to values (JS objects
preserve insertion order and never hold duplicate keys); `undef` models the
`undefined` value, which is distinct from a key being absent only through
`Object.entries`.  Property update (`o[k] = v`) updates the value of an
existing key in place, keeping its position, and appends a fresh key at the
end; object-literal spread `{a: x, ...o}` folds the entries of `o` over the
literal with exactly that update, which is what `setKey` and `spreadF` embed.
-/

inductive JSVal where
  | undef : JSVal
  | null : JSVal
  | bool (b : Bool) : JSVal
  | num (n : Int) : JSVal
  | str (s : String) : JSVal
  | arr (elems : List JSVal) : JSVal
  | obj (fields : List (String × JSVal)) : JSVal

mutual

def decEqVal : (a b : JSVal) → Decidable (a = b)
  | .undef, .undef => isTrue rfl
  | .undef, .null => isFalse (fun h => JSVal.noConfusion h)
  | .undef, .bool _ => isFalse (fun h => JSVal.noConfusion h)
  | .undef, .num _ => isFalse (fun h => JSVal.noConfusion h)
  | .undef, .str _ => isFalse (fun h => JSVal.noConfusion h)
  | .undef, .arr _ => isFalse (fun h => JSVal.noConfusion h)
  | .undef, .obj _ => isFalse (fun h => JSVal.noConfusion h)
  | .null, .undef => isFalse (fun h => JSVal.noConfusion h)
  | .null, .null => isTrue rfl
  | .null, .bool _ => isFalse (fun h => JSVal.noConfusion h)
  | .null, .num _ => isFalse (fun h => JSVal.noConfusion h)
  | .null, .str _ => isFalse (fun h => JSVal.noConfusion h)
  | .null, .arr _ => isFalse (fun h => JSVal.noConfusion h)
  | .null, .obj _ => isFalse (fun h => JSVal.noConfusion h)
  | .bool _, .undef => isFalse (fun h => JSVal.noConfusion h)
  | .bool _, .null => isFalse (fun h => JSVal.noConfusion h)
  | .bool x, .bool y =>
    if h : x = y then isTrue (h ▸ rfl) else isFalse (fun hh => h (JSVal.bool.inj hh))
  | .bool _, .num _ => isFalse (fun h => JSVal.noConfusion h)
  | .bool _, .str _ => isFalse (fun h => JSVal.noConfusion h)
  | .bool _, .arr _ => isFalse (fun h => JSVal.noConfusion h)
  | .bool _, .obj _ => isFalse (fun h => JSVal.noConfusion h)
  | .num _, .undef => isFalse (fun h => JSVal.noConfusion h)
  | .num _, .null => isFalse (fun h => JSVal.noConfusion h)
  | .num _, .bool _ => isFalse (fun h => JSVal.noConfusion h)
  | .num x, .num y =>
    if h : x = y then isTrue (h ▸ rfl) else isFalse (fun hh => h (JSVal.num.inj hh))
  | .num _, .str _ => isFalse (fun h => JSVal.noConfusion h)
  | .num _, .arr _ => isFalse (fun h => JSVal.noConfusion h)
  | .num _, .obj _ => isFalse (fun h => JSVal.noConfusion h)
  | .str _, .undef => isFalse (fun h => JSVal.noConfusion h)
  | .str _, .null => isFalse (fun h => JSVal.noConfusion h)
  | .str _, .bool _ => isFalse (fun h => JSVal.noConfusion h)
  | .str _, .num _ => isFalse (fun h => JSVal.noConfusion h)
  | .str x, .str y =>
    if h : x = y then isTrue (h ▸ rfl) else isFalse (fun hh => h (JSVal.str.inj hh))
  | .str _, .arr _ => isFalse (fun h => JSVal.noConfusion h)
  | .str _, .obj _ => isFalse (fun h => JSVal.noConfusion h)
  | .arr _, .undef => isFalse (fun h => JSVal.noConfusion h)
  | .arr _, .null => isFalse (fun h => JSVal.noConfusion h)
  | .arr _, .bool _ => isFalse (fun h => JSVal.noConfusion h)
  | .arr _, .num _ => isFalse (fun h => JSVal.noConfusion h)
  | .arr _, .str _ => isFalse (fun h => JSVal.noConfusion h)
  | .arr xs, .arr ys =>
    match decEqListVal xs ys with
    | isTrue h => isTrue (h ▸ rfl)
    | isFalse h => isFalse (fun hh => h (JSVal.arr.inj hh))
  | .arr _, .obj _ => isFalse (fun h => JSVal.noConfusion h)
  | .obj _, .undef => isFalse (fun h => JSVal.noConfusion h)
  | .obj _, .null => isFalse (fun h => JSVal.noConfusion h)
  | .obj _, .bool _ => isFalse (fun h => JSVal.noConfusion h)
  | .obj _, .num _ => isFalse (fun h => JSVal.noConfusion h)
  | .obj _, .str _ => isFalse (fun h => JSVal.noConfusion h)
  | .obj _, .arr _ => isFalse (fun h => JSVal.noConfusion h)
  | .obj fs, .obj gs =>
    match decEqFieldsVal fs gs with
    | isTrue h => isTrue (h ▸ rfl)
    | isFalse h => isFalse (fun hh => h (JSVal.obj.inj hh))

def decEqListVal : (xs ys : List JSVal) → Decidable (xs = ys)
  | [], [] => isTrue rfl
  | [], _ :: _ => isFalse (fun h => List.noConfusion h)
  | _ :: _, [] => isFalse (fun h => List.noConfusion h)
  | x :: xs, y :: ys =>
    match decEqVal x y with
    | isFalse h => isFalse (fun hh => h (List.head_eq_of_cons_eq hh))
    | isTrue h1 =>
      match decEqListVal xs ys with
      | isTrue h2 => isTrue (by rw [h1, h2])
      | isFalse h2 => isFalse (fun hh => h2 (List.tail_eq_of_cons_eq hh))

def decEqFieldsVal : (xs ys : List (String × JSVal)) → Decidable (xs = ys)
  | [], [] => isTrue rfl
  | [], _ :: _ => isFalse (fun h => List.noConfusion h)
  | _ :: _, [] => isFalse (fun h => List.noConfusion h)
  | (k, x) :: xs, (k2, y) :: ys =>
    if hk : k = k2 then
      match decEqVal x y with
      | isFalse h => isFalse (fun hh => h (congrArg Prod.snd (List.head_eq_of_cons_eq hh)))
      | isTrue h1 =>
        match decEqFieldsVal xs ys with
        | isTrue h2 => isTrue (by rw [hk, h1, h2])
        | isFalse h2 => isFalse (fun hh => h2 (List.tail_eq_of_cons_eq hh))
    else
      isFalse (fun hh => hk (congrArg Prod.fst (List.head_eq_of_cons_eq hh)))

end

instance : DecidableEq JSVal := decEqVal

instance {e a : Type} [DecidableEq e] [DecidableEq a] : DecidableEq (Except e a)
  | .ok x, .ok y =>
    if h : x = y then isTrue (h ▸ rfl) else isFalse (fun hh => h (Except.ok.inj hh))
  | .ok _, .error _ => isFalse (fun h => Except.noConfusion h)
  | .error _, .ok _ => isFalse (fun h => Except.noConfusion h)
  | .error x, .error y =>
    if h : x = y then isTrue (h ▸ rfl) else isFalse (fun hh => h (Except.error.inj hh))

/-- keysOf lists the keys of an object field list in order. -/
def keysOf (l : List (String × JSVal)) : List String := l.map Prod.fst

/-- lookupF finds the value stored at a key (JS objects hold each key once, so
the first match is the binding). -/
def lookupF : List (String × JSVal) → String → Option JSVal
  | [], _ => none
  | (k2, v) :: rest, k => if k2 = k then some v else lookupF rest k

/-- setKey embeds JavaScript property assignment `o[k] = v`: an existing key is
updated in place keeping its position, a fresh key is appended at the end. -/
def setKey : List (String × JSVal) → String → JSVal → List (String × JSVal)
  | [], k, v => [(k, v)]
  | (k2, v2) :: rest, k, v =>
    if k2 = k then (k2, v) :: rest else (k2, v2) :: setKey rest k v

/-- spreadF embeds the tail of an object literal `{base..., ...l}`: the entries
of `l` are assigned one by one, in order, onto the fields built so far. -/
def spreadF (base : List (String × JSVal)) (l : List (String × JSVal)) :
    List (String × JSVal) :=
  l.foldl (fun acc kv => setKey acc kv.1 kv.2) base

/-- truthy embeds JavaScript boolean coercion: `undefined`, `null`, `false`,
`0` and the empty string are falsy, everything else (objects and arrays
included) is truthy. -/
def truthy : JSVal → Bool
  | .undef => false
  | .null => false
  | .bool b => b
  | .num n => decide (n ≠ 0)
  | .str s => decide (s ≠ "")
  | .arr _ => true
  | .obj _ => true

/-- typeofJS embeds the JavaScript `typeof` operator; note `typeof null` and
`typeof` of an array are both `"object"`. -/
def typeofJS : JSVal → String
  | .undef => "undefined"
  | .null => "object"
  | .bool _ => "boolean"
  | .num _ => "number"
  | .str _ => "string"
  | .arr _ => "object"
  | .obj _ => "object"

/-- getProp embeds property access `v.k`, yielding `undefined` when the key is
absent or the receiver is not an object.  The embedded code only ever reads
named (non-index) properties, which do not exist on arrays or primitives, so
returning `undef` for every non-object receiver is faithful. -/
def getProp (v : JSVal) (k : String) : JSVal :=
  match v with
  | .obj fields => (lookupF fields k).getD .undef
  | _ => (.undef)

/-- entriesOf embeds `Object.entries`: the own enumerable entries of an object
in insertion order, index/value pairs for an array, nothing for primitives. -/
def entriesOf : JSVal → List (String × JSVal)
  | .obj fields => fields
  | .arr xs => xs.enum.map (fun p => (toString p.1, p.2))
  | _ => []

/-- isStr tests whether a value is a string, as `typeof x === "string"` does. -/
def isStr : JSVal → Bool
  | .str _ => true
  | _ => false

/-- isObjMap tests whether a value is a JSON object map (a JavaScript
non-array, non-null object). -/
def isObjMap : JSVal → Bool
  | .obj _ => true
  | _ => false

/-- isArrVal tests whether a value is an array, as `Array.isArray` does. -/
def isArrVal : JSVal → Bool
  | .arr _ => true
  | _ => false

mutual

/-- jsToString embeds JavaScript string coercion as used by the template
literal in the 501 reply: strings stay, arrays join their coerced elements
with commas (`null` and `undefined` elements become empty), plain objects
print as `[object Object]`. -/
def jsToString : JSVal → String
  | .undef => "undefined"
  | .null => "null"
  | .bool true => "true"
  | .bool false => "false"
  | .num n => toString n
  | .str s => s
  | .obj _ => "[object Object]"
  | .arr xs => jsJoin xs

def jsJoin : List JSVal → String
  | [] => ""
  | [.undef] => ""
  | [.null] => ""
  | [v] => jsToString v
  | .undef :: rest => "," ++ jsJoin rest
  | .null :: rest => "," ++ jsJoin rest
  | v :: rest => jsToString v ++ "," ++ jsJoin rest

end

/-
Embedding of src/schema-normalizer.ts.
-/

/-- schemaNeedsNormalization embeds the function of the same name: a non-null
object whose `type` property is falsy while its `properties` property is not
`undefined`. -/
def schemaNeedsNormalization (schema : JSVal) : Bool :=
  if typeofJS schema ≠ "object" ∨ schema = .null then false
  else !truthy (getProp schema "type") && decide (getProp schema "properties" ≠ .undef)

/-- normalizeInputSchema embeds the function of the same name: a schema that
needs normalization is rebuilt as the literal `{type: "object", ...schema}`,
any other value is returned as is.  The non-object match arm is unreachable
because `schemaNeedsNormalization` only accepts objects. -/
def normalizeInputSchema (schema : JSVal) : JSVal :=
  if schemaNeedsNormalization schema then
    match schema with
    | .obj fields => .obj (spreadF [("type", JSVal.str "object")] fields)
    | _ => schema
  else schema

/-- descOf embeds the `description` computation of `normalizeTool`: the value
when it is a string, `undefined` otherwise. -/
def descOf (tool : JSVal) : JSVal :=
  match getProp tool "description" with
  | .str s => .str s
  | _ => (.undef)

/-- defaultSchema is the schema substituted when a tool carries none. -/
def defaultSchema : JSVal :=
  .obj [("type", JSVal.str "object"), ("properties", JSVal.obj [])]

/-- isReservedKey names the three keys `normalizeTool` sets explicitly and
therefore skips in its passthrough loop. -/
def isReservedKey (k : String) : Bool :=
  k = "name" || k = "description" || k = "inputSchema"

/-- mkTool embeds the construction of the normalized tool object: the literal
`{name, description, inputSchema}` followed by the loop appending every other
entry of the original tool in order. -/
def mkTool (n : String) (desc : JSVal) (schema : JSVal)
    (entries : List (String × JSVal)) : JSVal :=
  .obj (spreadF
    [("name", JSVal.str n), ("description", desc), ("inputSchema", schema)]
    (entries.filter (fun kv => !isReservedKey kv.1)))

/-- normalizeTool embeds the function of the same name, with `Except` standing
for thrown errors: non-objects and missing string names are rejected, a
present non-object (or null) inputSchema is rejected, a missing inputSchema is
replaced by the default, and all other fields pass through. -/
def normalizeTool (tool : JSVal) : Except String JSVal :=
  if typeofJS tool ≠ "object" ∨ tool = .null then
    .error ("Invalid tool: expected object, got " ++ typeofJS tool)
  else
    match getProp tool "name" with
    | .str n =>
      if getProp tool "inputSchema" = .undef then
        .ok (mkTool n (descOf tool) defaultSchema (entriesOf tool))
      else if typeofJS (getProp tool "inputSchema") ≠ "object" ∨
          getProp tool "inputSchema" = .null then
        .error ("Invalid tool \x27" ++ n ++ "\x27: inputSchema must be an object")
      else
        .ok (mkTool n (descOf tool)
          (normalizeInputSchema (getProp tool "inputSchema")) (entriesOf tool))
    | _ => .error "Invalid tool: missing or invalid \x27name\x27 field"

/-- mapMTool embeds `tools.map(normalizeTool)` where the first thrown error
aborts the whole traversal. -/
def mapMTool : List JSVal → Except String (List JSVal)
  | [] => .ok []
  | t :: ts =>
    match normalizeTool t with
    | .error e => .error e
    | .ok d =>
      match mapMTool ts with
      | .error e => .error e
      | .ok ds => .ok (d :: ds)

/-- normalizeTools embeds the function of the same name: a non-array input
yields the empty list, an array is mapped element-wise. -/
def normalizeTools (tools : JSVal) : Except String (List JSVal) :=
  match tools with
  | .arr ts => mapMTool ts
  | _ => .ok []

/-- normalizeToolsListResponse embeds the function of the same name: it
returns non-objects, error responses, responses without an object `result`,
and results without a `tools` array unchanged; otherwise it rebuilds the
response as `{...response, result: {...result, tools: normalizeTools(tools)}}`. -/
def normalizeToolsListResponse (response : JSVal) : Except String JSVal :=
  if typeofJS response ≠ "object" ∨ response = .null then .ok response
  else if getProp response "error" ≠ .undef then .ok response
  else if typeofJS (getProp response "result") ≠ "object" ∨
      getProp response "result" = .null then .ok response
  else
    match getProp (getProp response "result") "tools" with
    | .arr ts =>
      (normalizeTools (.arr ts)).bind fun ds =>
        .ok (.obj (setKey (spreadF [] (entriesOf response)) "result"
          (.obj (setKey (spreadF [] (entriesOf (getProp response "result")))
            "tools" (.arr ds)))))
    | _ => .ok response

/-
Embedding of the request router (the `/message` handler of the proxy server).
The handler is a function of the inbound request and of the upstream client it
delegates to; its observable effects are the synchronous HTTP reply, the
messages written to the session's SSE channel, and the upstream calls made.
-/

/-- UpstreamCall records one delegation to the upstream MCP client. -/
inductive UpstreamCall where
  | listTools : UpstreamCall
  | callTool (params : JSVal) : UpstreamCall
deriving DecidableEq

/-- Upstream abstracts the injected `mcpClient` capability: each operation
either returns a raw result value or throws with a message. -/
structure Upstream where
  listToolsResult : Except String JSVal
  callToolResult : JSVal → Except String JSVal

/-- Reply is the synchronous HTTP response of the `/message` endpoint. -/
structure Reply where
  status : Nat
  body : JSVal
deriving DecidableEq

/-- Outcome collects every observable effect of one `/message` invocation. -/
structure Outcome where
  reply : Reply
  sseWrites : List JSVal
  upstreamCalls : List UpstreamCall
deriving DecidableEq

/-- jsonRpcError builds the JSON-RPC error envelope the handler replies with
synchronously: `{jsonrpc: "2.0", error: {code, message}, id}`. -/
def jsonRpcError (code : Int) (msg : String) (rid : JSVal) : JSVal :=
  .obj [("jsonrpc", JSVal.str "2.0"),
    ("error", JSVal.obj [("code", JSVal.num code), ("message", JSVal.str msg)]),
    ("id", rid)]

/-- idOrNull embeds `message.id ?? null`. -/
def idOrNull : JSVal → JSVal
  | .undef => .null
  | .null => .null
  | v => v

/-- catchOutcome embeds the catch block of the handler: the error is pushed to
the SSE channel as a JSON-RPC `-32603` error and the synchronous caller gets a
500 reply with `{status: "error", message}`. -/
def catchOutcome (message : JSVal) (e : String) (calls : List UpstreamCall) :
    Outcome :=
  ⟨⟨500, .obj [("status", JSVal.str "error"), ("message", JSVal.str e)]⟩,
   [.obj [("jsonrpc", JSVal.str "2.0"), ("id", getProp message "id"),
     ("error", JSVal.obj [("code", JSVal.num (-32603)),
       ("message", JSVal.str ("Internal error: " ++ e))])]],
   calls⟩

/-- handleMessage embeds `app.post("/message")`: clientId and session lookup
are abstracted to the booleans `clientIdPresent` (the query parameter is
present and truthy) and `clientFound` (the connection map holds the id). -/
def handleMessage (up : Upstream) (clientIdPresent clientFound : Bool)
    (message : JSVal) : Outcome :=
  if clientIdPresent = false then
    ⟨⟨400, jsonRpcError (-32600) "Missing clientId parameter" .null⟩, [], []⟩
  else if clientFound = false then
    ⟨⟨404, jsonRpcError (-32600) "Client not found" .null⟩, [], []⟩
  else if truthy message = false ∨ typeofJS message ≠ "object" then
    ⟨⟨400, jsonRpcError (-32600) "Invalid JSON-RPC message" .null⟩, [], []⟩
  else if truthy (getProp message "method") = false then
    ⟨⟨400, jsonRpcError (-32600) "Missing method field"
      (idOrNull (getProp message "id"))⟩, [], []⟩
  else if getProp message "method" = .str "tools/list" then
    match up.listToolsResult with
    | .error e => catchOutcome message e [.listTools]
    | .ok result =>
      match normalizeToolsListResponse (.obj [("jsonrpc", JSVal.str "2.0"),
          ("id", getProp message "id"),
          ("result", JSVal.obj [("tools", getProp result "tools")])]) with
      | .error e => catchOutcome message e [.listTools]
      | .ok nr =>
        ⟨⟨202, .obj [("status", JSVal.str "accepted")]⟩, [nr], [.listTools]⟩
  else if getProp message "method" = .str "tools/call" then
    match up.callToolResult (getProp message "params") with
    | .error e => catchOutcome message e [.callTool (getProp message "params")]
    | .ok result =>
      ⟨⟨202, .obj [("status", JSVal.str "accepted")]⟩,
       [.obj [("jsonrpc", JSVal.str "2.0"), ("id", getProp message "id"),
         ("result", result)]],
       [.callTool (getProp message "params")]⟩
  else
    ⟨⟨501, jsonRpcError (-32601)
      ("Method not implemented: " ++ jsToString (getProp message "method"))
      (idOrNull (getProp message "id"))⟩, [], []⟩

/-- stubUpstream is a concrete upstream used to instantiate closed statements
about branches that never reach the upstream. -/
def stubUpstream : Upstream :=
  ⟨.ok JSVal.undef, fun _ => .ok JSVal.undef⟩

/-- failingUpstream is a concrete upstream whose calls always throw `boom`. -/
def failingUpstream : Upstream :=
  ⟨.error "boom", fun _ => .error "boom"⟩

/-
Lemmas about the object primitives.
-/

@[simp]
theorem keysOf_nil : keysOf [] = [] := rfl

@[simp]
theorem keysOf_cons (kv : String × JSVal) (l : List (String × JSVal)) :
    keysOf (kv :: l) = kv.1 :: keysOf l := rfl

@[simp]
theorem keysOf_append (l1 l2 : List (String × JSVal)) :
    keysOf (l1 ++ l2) = keysOf l1 ++ keysOf l2 := by
  simp [keysOf]

theorem lookupF_eq_none_iff (l : List (String × JSVal)) (k : String) :
    lookupF l k = none ↔ k ∉ keysOf l := by
  induction l with
  | nil => simp [lookupF]
  | cons kv rest ih =>
    obtain ⟨k2, v2⟩ := kv
    by_cases h : k2 = k
    · subst h; simp [lookupF]
    · have hk : ¬ k = k2 := fun hh => h hh.symm
      simp [lookupF, h, ih, hk]

theorem lookupF_mem_keysOf {l : List (String × JSVal)} {k : String} {v : JSVal}
    (h : lookupF l k = some v) : k ∈ keysOf l := by
  by_contra hk
  rw [← lookupF_eq_none_iff] at hk
  rw [h] at hk
  exact Option.noConfusion hk

theorem lookupF_append (l1 l2 : List (String × JSVal)) (k : String) :
    lookupF (l1 ++ l2) k =
      match lookupF l1 k with
      | some v => some v
      | none => lookupF l2 k := by
  induction l1 with
  | nil => simp [lookupF]
  | cons kv rest ih =>
    obtain ⟨k2, v2⟩ := kv
    by_cases h : k2 = k
    · subst h; simp [lookupF]
    · simp [lookupF, h, ih]

theorem keysOf_setKey (l : List (String × JSVal)) (k : String) (v : JSVal) :
    keysOf (setKey l k v) = if k ∈ keysOf l then keysOf l else keysOf l ++ [k] := by
  induction l with
  | nil => simp [setKey]
  | cons kv rest ih =>
    obtain ⟨k2, v2⟩ := kv
    by_cases h : k2 = k
    · subst h; simp [setKey]
    · have hne : ¬ k = k2 := fun hh => h hh.symm
      by_cases h2 : k ∈ keysOf rest <;>
        simp [setKey, h, ih, h2, hne]

theorem setKey_not_mem {l : List (String × JSVal)} {k : String} (v : JSVal)
    (h : k ∉ keysOf l) : setKey l k v = l ++ [(k, v)] := by
  induction l with
  | nil => simp [setKey]
  | cons kv rest ih =>
    obtain ⟨k2, v2⟩ := kv
    simp only [keysOf_cons, List.mem_cons] at h
    push_neg at h
    have : ¬ k2 = k := fun hh => h.1 hh.symm
    simp [setKey, this, ih h.2]

theorem nodup_keysOf_setKey {l : List (String × JSVal)} (k : String) (v : JSVal)
    (h : (keysOf l).Nodup) : (keysOf (setKey l k v)).Nodup := by
  rw [keysOf_setKey]
  by_cases h2 : k ∈ keysOf l
  · simpa [h2]
  · simpa [h2, List.nodup_append] using h

theorem lookupF_setKey_self (l : List (String × JSVal)) (k : String) (v : JSVal) :
    lookupF (setKey l k v) k = some v := by
  induction l with
  | nil => simp [setKey, lookupF]
  | cons kv rest ih =>
    obtain ⟨k2, v2⟩ := kv
    by_cases h : k2 = k <;> simp [setKey, h, lookupF, ih]

theorem lookupF_setKey_other (l : List (String × JSVal)) {k k2 : String}
    (v : JSVal) (h : k2 ≠ k) : lookupF (setKey l k v) k2 = lookupF l k2 := by
  have hk : ¬ k = k2 := fun hh => h hh.symm
  induction l with
  | nil => simp [setKey, lookupF, hk]
  | cons kv rest ih =>
    obtain ⟨k3, v3⟩ := kv
    by_cases h3 : k3 = k
    · subst h3
      simp [setKey, lookupF, hk]
    · simp [setKey, h3, lookupF, ih]

@[simp]
theorem spreadF_nil (base : List (String × JSVal)) : spreadF base [] = base := rfl

theorem spreadF_cons (base : List (String × JSVal)) (kv : String × JSVal)
    (l : List (String × JSVal)) :
    spreadF base (kv :: l) = spreadF (setKey base kv.1 kv.2) l := rfl

theorem setKey_append_left {l1 : List (String × JSVal)}
    (l2 : List (String × JSVal)) {k : String} (v : JSVal) (h : k ∉ keysOf l1) :
    setKey (l1 ++ l2) k v = l1 ++ setKey l2 k v := by
  induction l1 with
  | nil => simp
  | cons kv rest ih =>
    obtain ⟨k2, v2⟩ := kv
    simp only [keysOf_cons, List.mem_cons] at h
    push_neg at h
    have : ¬ k2 = k := fun hh => h.1 hh.symm
    simp [setKey, this, ih h.2]

theorem spreadF_append_base (l : List (String × JSVal))
    {base : List (String × JSVal)} (acc : List (String × JSVal))
    (h : ∀ kv ∈ l, kv.1 ∉ keysOf base) :
    spreadF (base ++ acc) l = base ++ spreadF acc l := by
  induction l generalizing acc with
  | nil => simp
  | cons kv rest ih =>
    rw [spreadF_cons, spreadF_cons,
      setKey_append_left acc kv.2 (h kv (List.mem_cons_self kv rest))]
    exact ih (setKey acc kv.1 kv.2) (fun kv2 h2 => h kv2 (List.mem_cons_of_mem kv h2))

theorem spreadF_nil_base {l : List (String × JSVal)} (h : (keysOf l).Nodup) :
    spreadF [] l = l := by
  induction l with
  | nil => rfl
  | cons kv rest ih =>
    obtain ⟨k, v⟩ := kv
    simp only [keysOf_cons, List.nodup_cons] at h
    rw [spreadF_cons]
    have hbase : setKey ([] : List (String × JSVal)) k v = [(k, v)] := rfl
    simp only [hbase]
    have : spreadF ([(k, v)] ++ []) rest = [(k, v)] ++ spreadF [] rest := by
      refine spreadF_append_base rest [] (fun kv2 h2 => ?_)
      simp only [keysOf_cons, keysOf_nil, List.mem_singleton]
      intro hk
      exact h.1 (hk ▸ List.mem_map_of_mem Prod.fst h2)
    simpa [ih h.2] using this

theorem spreadF_disjoint {base l : List (String × JSVal)}
    (hnd : (keysOf l).Nodup) (h : ∀ kv ∈ l, kv.1 ∉ keysOf base) :
    spreadF base l = base ++ l := by
  have := spreadF_append_base l ([] : List (String × JSVal)) h
  simpa [spreadF_nil_base hnd] using this

theorem nodup_keysOf_spreadF (l : List (String × JSVal))
    {base : List (String × JSVal)} (h : (keysOf base).Nodup) :
    (keysOf (spreadF base l)).Nodup := by
  induction l generalizing base with
  | nil => simpa
  | cons kv rest ih =>
    rw [spreadF_cons]
    exact ih (nodup_keysOf_setKey kv.1 kv.2 h)

theorem mem_keysOf_spreadF {l : List (String × JSVal)}
    {base : List (String × JSVal)} {k : String}
    (h : k ∈ keysOf (spreadF base l)) : k ∈ keysOf base ∨ k ∈ keysOf l := by
  induction l generalizing base with
  | nil => exact Or.inl (by simpa using h)
  | cons kv rest ih =>
    rw [spreadF_cons] at h
    rcases ih h with h2 | h2
    · rw [keysOf_setKey] at h2
      by_cases h3 : kv.1 ∈ keysOf base
      · simp only [h3, if_true] at h2
        exact Or.inl h2
      · simp only [h3, if_false, List.mem_append, List.mem_singleton] at h2
        rcases h2 with h2 | h2
        · exact Or.inl h2
        · exact Or.inr (by simp [h2])
    · exact Or.inr (by simp [h2])

theorem spreadF_head_stable (l : List (String × JSVal)) :
    ∀ (base : List (String × JSVal)) (k0 : String) (v0 : JSVal),
      ∃ w rest, spreadF ((k0, v0) :: base) l = (k0, w) :: rest := by
  induction l with
  | nil => exact fun base k0 v0 => ⟨v0, base, rfl⟩
  | cons kv rest ih =>
    intro base k0 v0
    rw [spreadF_cons]
    by_cases h : k0 = kv.1
    · have : setKey ((k0, v0) :: base) kv.1 kv.2 = (k0, kv.2) :: base := by
        simp [setKey, h]
      rw [this]
      exact ih base k0 kv.2
    · have : setKey ((k0, v0) :: base) kv.1 kv.2 =
          (k0, v0) :: setKey base kv.1 kv.2 := by
        simp [setKey, h]
      rw [this]
      exact ih (setKey base kv.1 kv.2) k0 v0

theorem setKey_setKey_same (l : List (String × JSVal)) (k : String)
    (v v2 : JSVal) : setKey (setKey l k v) k v2 = setKey l k v2 := by
  induction l with
  | nil => simp [setKey]
  | cons kv rest ih =>
    obtain ⟨k3, v3⟩ := kv
    by_cases h : k3 = k <;> simp [setKey, h, ih]

/-
Lemmas about the schema normalizer.
-/

theorem schemaNeedsNormalization_obj {s : JSVal}
    (h : schemaNeedsNormalization s = true) : ∃ f, s = .obj f := by
  cases s with
  | obj f => exact ⟨f, rfl⟩
  | undef => simp [schemaNeedsNormalization, typeofJS] at h
  | null => simp [schemaNeedsNormalization] at h
  | bool b => simp [schemaNeedsNormalization, typeofJS] at h
  | num n => simp [schemaNeedsNormalization, typeofJS] at h
  | str s => simp [schemaNeedsNormalization, typeofJS] at h
  | arr xs => simp [schemaNeedsNormalization, typeofJS, getProp] at h

theorem normalizeInputSchema_of_false {s : JSVal}
    (h : schemaNeedsNormalization s = false) : normalizeInputSchema s = s := by
  simp [normalizeInputSchema, h]

theorem normalizeInputSchema_obj_spread {f : List (String × JSVal)}
    (h : schemaNeedsNormalization (.obj f) = true) :
    normalizeInputSchema (.obj f) =
      .obj (spreadF [("type", JSVal.str "object")] f) := by
  simp [normalizeInputSchema, h]

theorem normalizeInputSchema_idem (s : JSVal) :
    normalizeInputSchema (normalizeInputSchema s) = normalizeInputSchema s := by
  by_cases h : schemaNeedsNormalization s = true
  · obtain ⟨f, rfl⟩ := schemaNeedsNormalization_obj h
    rw [normalizeInputSchema_obj_spread h]
    by_cases h2 : schemaNeedsNormalization
        (.obj (spreadF [("type", JSVal.str "object")] f)) = true
    · rw [normalizeInputSchema_obj_spread h2]
      obtain ⟨w, rest, hsh⟩ := spreadF_head_stable f [] "type" (JSVal.str "object")
      have hnd : (keysOf (spreadF [("type", JSVal.str "object")] f)).Nodup :=
        nodup_keysOf_spreadF f (by simp [keysOf])
      rw [hsh] at hnd ⊢
      simp only [keysOf_cons, List.nodup_cons] at hnd
      rw [spreadF_cons]
      have hset : setKey [("type", JSVal.str "object")] "type" w = [("type", w)] := by
        simp [setKey]
      simp only [hset]
      have hdj : spreadF [("type", w)] rest = [("type", w)] ++ rest := by
        refine spreadF_disjoint hnd.2 (fun kv hkv => ?_)
        simp only [keysOf_cons, keysOf_nil, List.mem_singleton]
        intro hk
        exact hnd.1 (hk ▸ List.mem_map_of_mem Prod.fst hkv)
      simpa using hdj
    · have hf : schemaNeedsNormalization
          (.obj (spreadF [("type", JSVal.str "object")] f)) = false := by
        simpa using h2
      exact normalizeInputSchema_of_false hf
  · have hf : schemaNeedsNormalization s = false := by simpa using h
    rw [normalizeInputSchema_of_false hf, normalizeInputSchema_of_false hf]

theorem normalizeInputSchema_typeof {s : JSVal} (h1 : typeofJS s = "object")
    (h2 : s ≠ .null) : typeofJS (normalizeInputSchema s) = "object" ∧
      normalizeInputSchema s ≠ .null := by
  by_cases h : schemaNeedsNormalization s = true
  · obtain ⟨f, rfl⟩ := schemaNeedsNormalization_obj h
    rw [normalizeInputSchema_obj_spread h]
    exact ⟨rfl, fun hh => JSVal.noConfusion hh⟩
  · have hf : schemaNeedsNormalization s = false := by simpa using h
    rw [normalizeInputSchema_of_false hf]
    exact ⟨h1, h2⟩

theorem descOf_cases (t : JSVal) : descOf t = .undef ∨ ∃ s, descOf t = .str s := by
  unfold descOf
  cases getProp t "description" with
  | str s => exact Or.inr ⟨s, rfl⟩
  | undef => exact Or.inl rfl
  | null => exact Or.inl rfl
  | bool b => exact Or.inl rfl
  | num n => exact Or.inl rfl
  | arr xs => exact Or.inl rfl
  | obj f => exact Or.inl rfl

theorem mkTool_eq_append (n : String) (desc schema : JSVal)
    (entries : List (String × JSVal)) :
    mkTool n desc schema entries =
      .obj ([("name", JSVal.str n), ("description", desc), ("inputSchema", schema)]
        ++ spreadF [] (entries.filter (fun kv => !isReservedKey kv.1))) := by
  unfold mkTool
  congr 1
  have h : ∀ kv ∈ entries.filter (fun kv => !isReservedKey kv.1),
      kv.1 ∉ keysOf [("name", JSVal.str n), ("description", desc),
        ("inputSchema", schema)] := by
    intro kv hkv
    have hres : isReservedKey kv.1 = false := by
      have := (List.mem_filter.mp hkv).2
      simpa using this
    simp only [isReservedKey, Bool.or_eq_false_iff, decide_eq_false_iff_not] at hres
    simp only [keysOf_cons, keysOf_nil, List.mem_cons, List.not_mem_nil]
    push_neg
    exact ⟨hres.1.1, hres.1.2, hres.2, fun hh => hh⟩
  have := spreadF_append_base (entries.filter (fun kv => !isReservedKey kv.1))
    ([] : List (String × JSVal)) h
  simpa using this

/-- exceptOk tests whether an embedded computation returned without throwing. -/
def exceptOk {e a : Type} : Except e a → Bool
  | .ok _ => true
  | .error _ => false

theorem getProp_mkTool_name (n : String) (desc schema : JSVal)
    (entries : List (String × JSVal)) :
    getProp (mkTool n desc schema entries) "name" = .str n := by
  rw [mkTool_eq_append]
  simp [getProp, lookupF_append, lookupF]

theorem getProp_mkTool_description (n : String) (desc schema : JSVal)
    (entries : List (String × JSVal)) :
    getProp (mkTool n desc schema entries) "description" = desc := by
  rw [mkTool_eq_append]
  simp [getProp, lookupF_append, lookupF]

theorem getProp_mkTool_inputSchema (n : String) (desc schema : JSVal)
    (entries : List (String × JSVal)) :
    getProp (mkTool n desc schema entries) "inputSchema" = schema := by
  rw [mkTool_eq_append]
  simp [getProp, lookupF_append, lookupF]

theorem unreserved_not_in_base {k : String} (h : isReservedKey k = false)
    (n : String) (desc schema : JSVal) :
    k ∉ keysOf [("name", JSVal.str n), ("description", desc),
      ("inputSchema", schema)] := by
  intro hmem
  simp only [keysOf_cons, keysOf_nil, List.mem_cons, List.not_mem_nil,
    or_false] at hmem
  rcases hmem with h1 | h1 | h1 <;> simp [isReservedKey, h1] at h

theorem spreadF_filter_unreserved {entries : List (String × JSVal)}
    {kv : String × JSVal}
    (h : kv ∈ spreadF [] (entries.filter (fun kv => !isReservedKey kv.1))) :
    isReservedKey kv.1 = false := by
  have hk : kv.1 ∈ keysOf (spreadF []
      (entries.filter (fun kv => !isReservedKey kv.1))) :=
    List.mem_map_of_mem Prod.fst h
  rcases mem_keysOf_spreadF hk with h2 | h2
  · simp at h2
  · obtain ⟨kv2, hkv2, heq⟩ := List.mem_map.mp h2
    have hres := (List.mem_filter.mp hkv2).2
    rw [← heq]
    simpa using hres

theorem mkTool_restore (n : String) (desc schema : JSVal)
    (entries : List (String × JSVal)) :
    mkTool n desc schema (entriesOf (mkTool n desc schema entries)) =
      mkTool n desc schema entries := by
  have hE : entriesOf (mkTool n desc schema entries) =
      [("name", JSVal.str n), ("description", desc), ("inputSchema", schema)]
        ++ spreadF [] (entries.filter (fun kv => !isReservedKey kv.1)) := by
    rw [mkTool_eq_append]; rfl
  have hfilter : (([("name", JSVal.str n), ("description", desc),
      ("inputSchema", schema)] : List (String × JSVal))
        ++ spreadF [] (entries.filter (fun kv => !isReservedKey kv.1))).filter
      (fun kv => !isReservedKey kv.1) =
      spreadF [] (entries.filter (fun kv => !isReservedKey kv.1)) := by
    rw [List.filter_append]
    have hbase : ([("name", JSVal.str n), ("description", desc),
        ("inputSchema", schema)]).filter (fun kv => !isReservedKey kv.1) = [] := by
      simp [isReservedKey]
    have hkeep : (spreadF [] (entries.filter (fun kv => !isReservedKey kv.1))).filter
        (fun kv => !isReservedKey kv.1) =
        spreadF [] (entries.filter (fun kv => !isReservedKey kv.1)) := by
      refine List.filter_eq_self.mpr (fun kv hkv => ?_)
      simp [spreadF_filter_unreserved hkv]
    rw [hbase, hkeep]
    rfl
  have hnd : (keysOf (spreadF []
      (entries.filter (fun kv => !isReservedKey kv.1)))).Nodup :=
    nodup_keysOf_spreadF _ (by simp)
  have hdisjE : ∀ kv ∈ spreadF [] (entries.filter (fun kv => !isReservedKey kv.1)),
      kv.1 ∉ keysOf [("name", JSVal.str n), ("description", desc),
        ("inputSchema", schema)] :=
    fun kv hkv => unreserved_not_in_base (spreadF_filter_unreserved hkv) n desc schema
  have hdisjF : ∀ kv ∈ entries.filter (fun kv => !isReservedKey kv.1),
      kv.1 ∉ keysOf [("name", JSVal.str n), ("description", desc),
        ("inputSchema", schema)] := by
    intro kv hkv
    have hres : isReservedKey kv.1 = false := by
      simpa using (List.mem_filter.mp hkv).2
    exact unreserved_not_in_base hres n desc schema
  rw [hE]
  unfold mkTool
  rw [hfilter]
  congr 1
  rw [spreadF_disjoint hnd hdisjE]
  have hR := spreadF_append_base (entries.filter (fun kv => !isReservedKey kv.1))
    ([] : List (String × JSVal)) hdisjF
  simpa using hR.symm

theorem descOf_mkTool {t : JSVal} (n : String) (schema : JSVal)
    (entries : List (String × JSVal)) :
    descOf (mkTool n (descOf t) schema entries) = descOf t := by
  have hd := getProp_mkTool_description n (descOf t) schema entries
  rcases descOf_cases t with h | ⟨s, h⟩ <;>
    · rw [descOf, hd, h]

theorem normalizeTool_ok_inv {t d : JSVal} (h : normalizeTool t = .ok d) :
    ∃ n schema,
      typeofJS t = "object" ∧ t ≠ .null ∧
      getProp t "name" = .str n ∧
      (getProp t "inputSchema" = .undef ∨
        (typeofJS (getProp t "inputSchema") = "object" ∧
          getProp t "inputSchema" ≠ .null)) ∧
      typeofJS schema = "object" ∧ schema ≠ .null ∧
      normalizeInputSchema schema = schema ∧
      (getProp t "inputSchema" = .undef → schema = defaultSchema) ∧
      (getProp t "inputSchema" ≠ .undef →
        schema = normalizeInputSchema (getProp t "inputSchema")) ∧
      d = mkTool n (descOf t) schema (entriesOf t) := by
  unfold normalizeTool at h
  by_cases h1 : typeofJS t ≠ "object" ∨ t = .null
  · rw [if_pos h1] at h
    exact absurd h (by simp)
  · rw [if_neg h1] at h
    push_neg at h1
    cases hn : getProp t "name" with
    | str n =>
      simp only [hn] at h
      by_cases h2 : getProp t "inputSchema" = .undef
      · rw [if_pos h2] at h
        exact ⟨n, defaultSchema, h1.1, h1.2, rfl, Or.inl h2, by decide, by decide,
          by decide, fun _ => rfl, fun hc => absurd h2 hc, (Except.ok.inj h).symm⟩
      · rw [if_neg h2] at h
        by_cases h3 : typeofJS (getProp t "inputSchema") ≠ "object" ∨
            getProp t "inputSchema" = .null
        · rw [if_pos h3] at h
          exact absurd h (by simp)
        · rw [if_neg h3] at h
          push_neg at h3
          have hpres := normalizeInputSchema_typeof h3.1 h3.2
          exact ⟨n, normalizeInputSchema (getProp t "inputSchema"), h1.1, h1.2, rfl,
            Or.inr ⟨h3.1, h3.2⟩, hpres.1, hpres.2, normalizeInputSchema_idem _,
            fun hc => absurd hc h2, fun _ => rfl, (Except.ok.inj h).symm⟩
    | undef => simp [hn] at h
    | null => simp [hn] at h
    | bool b => simp [hn] at h
    | num m => simp [hn] at h
    | arr xs => simp [hn] at h
    | obj f => simp [hn] at h

theorem normalizeTool_ok_of {t : JSVal} {n : String}
    (h1 : typeofJS t = "object") (h2 : t ≠ .null)
    (hn : getProp t "name" = .str n)
    (hs : getProp t "inputSchema" = .undef ∨
      (typeofJS (getProp t "inputSchema") = "object" ∧
        getProp t "inputSchema" ≠ .null)) :
    ∃ d, normalizeTool t = .ok d := by
  unfold normalizeTool
  have hc : ¬(typeofJS t ≠ "object" ∨ t = .null) := by
    push_neg
    exact ⟨h1, h2⟩
  rw [if_neg hc]
  simp only [hn]
  rcases hs with hu | ⟨hty, hnn⟩
  · rw [if_pos hu]
    exact ⟨_, rfl⟩
  · have hu : ¬ getProp t "inputSchema" = .undef := by
      intro hh
      rw [hh] at hty
      exact absurd hty (by decide)
    rw [if_neg hu]
    have h3 : ¬(typeofJS (getProp t "inputSchema") ≠ "object" ∨
        getProp t "inputSchema" = .null) := by
      push_neg
      exact ⟨hty, hnn⟩
    rw [if_neg h3]
    exact ⟨_, rfl⟩

theorem normalizeTool_idem {t d : JSVal} (h : normalizeTool t = .ok d) :
    normalizeTool d = .ok d := by
  obtain ⟨n, schema, hto, htn, hn, hsch, hty, hnn, hidem, hdef, hnorm, hd⟩ :=
    normalizeTool_ok_inv h
  subst hd
  have hobj : ¬(typeofJS (mkTool n (descOf t) schema (entriesOf t)) ≠ "object" ∨
      mkTool n (descOf t) schema (entriesOf t) = .null) := by
    rw [mkTool_eq_append]
    simp [typeofJS]
  have hund : ¬ schema = .undef := by
    intro hh
    rw [hh] at hty
    exact absurd hty (by decide)
  have h3 : ¬(typeofJS schema ≠ "object" ∨ schema = .null) := by
    push_neg
    exact ⟨hty, hnn⟩
  unfold normalizeTool
  rw [if_neg hobj]
  simp only [getProp_mkTool_name]
  simp only [getProp_mkTool_inputSchema]
  rw [if_neg hund, if_neg h3]
  rw [descOf_mkTool, hidem, mkTool_restore]

theorem exceptBind_ok {e a b : Type} (x : a) (f : a → Except e b) :
    (Except.ok x).bind f = f x := rfl

theorem exceptBind_error {e a b : Type} (s : e) (f : a → Except e b) :
    (Except.error s : Except e a).bind f = .error s := rfl

theorem mapMTool_length_get {ts ds : List JSVal} (h : mapMTool ts = .ok ds) :
    ds.length = ts.length ∧
      ∀ i, i < ts.length →
        normalizeTool (ts.getD i .undef) = .ok (ds.getD i .undef) := by
  induction ts generalizing ds with
  | nil =>
    unfold mapMTool at h
    have hds : ds = [] := (Except.ok.inj h).symm
    subst hds
    exact ⟨rfl, fun i hi => absurd hi (by simp)⟩
  | cons t ts ih =>
    unfold mapMTool at h
    cases hnt : normalizeTool t with
    | error e => rw [hnt] at h; exact absurd h (by simp)
    | ok d =>
      rw [hnt] at h
      cases hmt : mapMTool ts with
      | error e => rw [hmt] at h; exact absurd h (by simp)
      | ok ds2 =>
        rw [hmt] at h
        have hds : ds = d :: ds2 := (Except.ok.inj h).symm
        subst hds
        obtain ⟨hlen, hel⟩ := ih hmt
        refine ⟨by simp [hlen], fun i hi => ?_⟩
        cases i with
        | zero => simpa using hnt
        | succ j =>
          simp only [List.getD_cons_succ]
          exact hel j (by simpa using hi)

theorem mapMTool_idem {ts ds : List JSVal} (h : mapMTool ts = .ok ds) :
    mapMTool ds = .ok ds := by
  induction ts generalizing ds with
  | nil =>
    unfold mapMTool at h
    have hds : ds = [] := (Except.ok.inj h).symm
    subst hds
    rfl
  | cons t ts ih =>
    unfold mapMTool at h
    cases hnt : normalizeTool t with
    | error e => rw [hnt] at h; exact absurd h (by simp)
    | ok d =>
      rw [hnt] at h
      cases hmt : mapMTool ts with
      | error e => rw [hmt] at h; exact absurd h (by simp)
      | ok ds2 =>
        rw [hmt] at h
        have hds : ds = d :: ds2 := (Except.ok.inj h).symm
        subst hds
        have hd := normalizeTool_idem hnt
        have hrest := ih hmt
        unfold mapMTool
        rw [hd, hrest]

theorem normalizeToolsListResponse_id_c1 {r : JSVal}
    (hc1 : typeofJS r ≠ "object" ∨ r = .null) :
    normalizeToolsListResponse r = .ok r := by
  unfold normalizeToolsListResponse
  rw [if_pos hc1]

theorem normalizeToolsListResponse_id_err {r : JSVal}
    (hc1 : ¬(typeofJS r ≠ "object" ∨ r = .null))
    (hc2 : getProp r "error" ≠ .undef) :
    normalizeToolsListResponse r = .ok r := by
  unfold normalizeToolsListResponse
  rw [if_neg hc1, if_pos hc2]

theorem normalizeToolsListResponse_id_res {r : JSVal}
    (hc1 : ¬(typeofJS r ≠ "object" ∨ r = .null))
    (hc2 : ¬(getProp r "error" ≠ .undef))
    (hc3 : typeofJS (getProp r "result") ≠ "object" ∨ getProp r "result" = .null) :
    normalizeToolsListResponse r = .ok r := by
  unfold normalizeToolsListResponse
  rw [if_neg hc1, if_neg hc2, if_pos hc3]

theorem normalizeToolsListResponse_id_tools {r : JSVal}
    (hc1 : ¬(typeofJS r ≠ "object" ∨ r = .null))
    (hc2 : ¬(getProp r "error" ≠ .undef))
    (hc3 : ¬(typeofJS (getProp r "result") ≠ "object" ∨ getProp r "result" = .null))
    (htools : ∀ ts, getProp (getProp r "result") "tools" ≠ .arr ts) :
    normalizeToolsListResponse r = .ok r := by
  unfold normalizeToolsListResponse
  rw [if_neg hc1, if_neg hc2, if_neg hc3]
  cases hv : getProp (getProp r "result") "tools" with
  | arr ts => exact absurd hv (htools ts)
  | undef => rfl
  | null => rfl
  | bool b => rfl
  | num m => rfl
  | str s => rfl
  | obj f => rfl

theorem normalizeToolsListResponse_rewrite {r : JSVal} {ts ds : List JSVal}
    (hc1 : ¬(typeofJS r ≠ "object" ∨ r = .null))
    (hc2 : ¬(getProp r "error" ≠ .undef))
    (hc3 : ¬(typeofJS (getProp r "result") ≠ "object" ∨ getProp r "result" = .null))
    (htools : getProp (getProp r "result") "tools" = .arr ts)
    (hds : mapMTool ts = .ok ds) :
    normalizeToolsListResponse r = .ok (.obj (setKey (spreadF [] (entriesOf r))
      "result" (.obj (setKey (spreadF [] (entriesOf (getProp r "result")))
        "tools" (.arr ds))))) := by
  unfold normalizeToolsListResponse
  rw [if_neg hc1, if_neg hc2, if_neg hc3]
  simp only [htools, normalizeTools, hds, exceptBind_ok]

theorem normalizeToolsListResponse_out {RF SF : List (String × JSVal)}
    {ds : List JSVal}
    (hndRF : (keysOf RF).Nodup) (hndSF : (keysOf SF).Nodup)
    (hds : mapMTool ds = .ok ds) :
    normalizeToolsListResponse (.obj (setKey RF "result"
      (.obj (setKey SF "tools" (.arr ds))))) =
    .ok (.obj (setKey RF "result" (.obj (setKey SF "tools" (.arr ds))))) := by
  have hndNF : (keysOf (setKey SF "tools" (.arr ds))).Nodup :=
    nodup_keysOf_setKey _ _ hndSF
  have hndOF : (keysOf (setKey RF "result"
      (.obj (setKey SF "tools" (.arr ds))))).Nodup :=
    nodup_keysOf_setKey _ _ hndRF
  have hc1 : ¬(typeofJS (JSVal.obj (setKey RF "result"
      (.obj (setKey SF "tools" (.arr ds))))) ≠ "object" ∨
      JSVal.obj (setKey RF "result" (.obj (setKey SF "tools" (.arr ds)))) =
        .null) := by
    simp [typeofJS]
  have hres : getProp (JSVal.obj (setKey RF "result"
      (.obj (setKey SF "tools" (.arr ds))))) "result" =
      .obj (setKey SF "tools" (.arr ds)) := by
    simp [getProp, lookupF_setKey_self]
  by_cases hc2 : getProp (JSVal.obj (setKey RF "result"
      (.obj (setKey SF "tools" (.arr ds))))) "error" ≠ .undef
  · exact normalizeToolsListResponse_id_err hc1 hc2
  · have hc3 : ¬(typeofJS (getProp (JSVal.obj (setKey RF "result"
        (.obj (setKey SF "tools" (.arr ds))))) "result") ≠ "object" ∨
        getProp (JSVal.obj (setKey RF "result"
          (.obj (setKey SF "tools" (.arr ds))))) "result" = .null) := by
      rw [hres]
      simp [typeofJS]
    have htools : getProp (getProp (JSVal.obj (setKey RF "result"
        (.obj (setKey SF "tools" (.arr ds))))) "result") "tools" = .arr ds := by
      rw [hres]
      simp [getProp, lookupF_setKey_self]
    have h2 := normalizeToolsListResponse_rewrite hc1 hc2 hc3 htools hds
    rw [h2]
    congr 1
    rw [hres]
    simp only [entriesOf]
    rw [spreadF_nil_base hndOF, spreadF_nil_base hndNF, setKey_setKey_same,
      setKey_setKey_same]

theorem normalizeToolsListResponse_idem (r : JSVal) :
    (normalizeToolsListResponse r).bind normalizeToolsListResponse =
      normalizeToolsListResponse r := by
  by_cases hc1 : typeofJS r ≠ "object" ∨ r = .null
  · have hid := normalizeToolsListResponse_id_c1 hc1
    rw [hid, exceptBind_ok, hid]
  · by_cases hc2 : getProp r "error" ≠ .undef
    · have hid := normalizeToolsListResponse_id_err hc1 hc2
      rw [hid, exceptBind_ok, hid]
    · by_cases hc3 : typeofJS (getProp r "result") ≠ "object" ∨
          getProp r "result" = .null
      · have hid := normalizeToolsListResponse_id_res hc1 hc2 hc3
        rw [hid, exceptBind_ok, hid]
      · cases htools : getProp (getProp r "result") "tools" with
        | arr ts =>
          cases hds : mapMTool ts with
          | error e =>
            have herr : normalizeToolsListResponse r = .error e := by
              unfold normalizeToolsListResponse
              rw [if_neg hc1, if_neg hc2, if_neg hc3]
              simp only [htools, normalizeTools, hds, exceptBind_error]
            rw [herr, exceptBind_error]
          | ok ds =>
            have hout := normalizeToolsListResponse_rewrite hc1 hc2 hc3 htools hds
            rw [hout, exceptBind_ok]
            exact normalizeToolsListResponse_out
              (nodup_keysOf_spreadF _ (by simp))
              (nodup_keysOf_spreadF _ (by simp))
              (mapMTool_idem hds)
        | undef =>
          have hid := normalizeToolsListResponse_id_tools hc1 hc2 hc3
            (fun ts hh => by rw [htools] at hh; exact JSVal.noConfusion hh)
          rw [hid, exceptBind_ok, hid]
        | null =>
          have hid := normalizeToolsListResponse_id_tools hc1 hc2 hc3
            (fun ts hh => by rw [htools] at hh; exact JSVal.noConfusion hh)
          rw [hid, exceptBind_ok, hid]
        | bool b =>
          have hid := normalizeToolsListResponse_id_tools hc1 hc2 hc3
            (fun ts hh => by rw [htools] at hh; exact JSVal.noConfusion hh)
          rw [hid, exceptBind_ok, hid]
        | num m =>
          have hid := normalizeToolsListResponse_id_tools hc1 hc2 hc3
            (fun ts hh => by rw [htools] at hh; exact JSVal.noConfusion hh)
          rw [hid, exceptBind_ok, hid]
        | str s =>
          have hid := normalizeToolsListResponse_id_tools hc1 hc2 hc3
            (fun ts hh => by rw [htools] at hh; exact JSVal.noConfusion hh)
          rw [hid, exceptBind_ok, hid]
        | obj f =>
          have hid := normalizeToolsListResponse_id_tools hc1 hc2 hc3
            (fun ts hh => by rw [htools] at hh; exact JSVal.noConfusion hh)
          rw [hid, exceptBind_ok, hid]

/-
Claim theorems.
-/

/-- C1: for a schema object without a `type` key but with a `properties` key
(of any defined value), normalizeInputSchema returns a new object with
`type: "object"` inserted before all existing keys, every existing key and
value preserved verbatim; with both `type` and `properties` absent, the object
is returned unchanged. -/
theorem claim_normalizeInputSchema_missing_type (fields : List (String × JSVal)) :
    ((keysOf fields).Nodup → lookupF fields "type" = none →
      ∀ p, lookupF fields "properties" = some p → p ≠ .undef →
        normalizeInputSchema (.obj fields) =
          .obj (("type", JSVal.str "object") :: fields)) ∧
    (lookupF fields "type" = none → lookupF fields "properties" = none →
      normalizeInputSchema (.obj fields) = .obj fields) := by
  have hobjc : ¬(typeofJS (JSVal.obj fields) ≠ "object" ∨
      JSVal.obj fields = .null) := by
    simp [typeofJS]
  constructor
  · intro hnd htype p hprop hpundef
    have hneeds : schemaNeedsNormalization (.obj fields) = true := by
      unfold schemaNeedsNormalization
      rw [if_neg hobjc]
      simp [getProp, htype, hprop, truthy, hpundef]
    rw [normalizeInputSchema_obj_spread hneeds]
    congr 1
    have hnotin : ∀ kv ∈ fields, kv.1 ∉ keysOf [("type", JSVal.str "object")] := by
      intro kv hkv
      simp only [keysOf_cons, keysOf_nil, List.mem_singleton]
      intro heq
      have hmem : "type" ∈ keysOf fields :=
        heq ▸ List.mem_map_of_mem Prod.fst hkv
      exact ((lookupF_eq_none_iff fields "type").mp htype) hmem
    exact spreadF_disjoint hnd hnotin
  · intro htype hprop
    apply normalizeInputSchema_of_false
    unfold schemaNeedsNormalization
    rw [if_neg hobjc]
    simp [getProp, htype, hprop, truthy]

/-- Witness for C1 at `{properties: {}}` and at `{required: ["x"]}`. -/
theorem claim_normalizeInputSchema_missing_type_witness :
    normalizeInputSchema (.obj [("properties", JSVal.obj [])]) =
      .obj [("type", JSVal.str "object"), ("properties", JSVal.obj [])] ∧
    normalizeInputSchema (.obj [("required", JSVal.arr [.str "x"])]) =
      .obj [("required", JSVal.arr [.str "x"])] :=
  ⟨(claim_normalizeInputSchema_missing_type [("properties", JSVal.obj [])]).1
      (by decide) (by decide) (JSVal.obj []) (by decide) (by decide),
    (claim_normalizeInputSchema_missing_type [("required", JSVal.arr [.str "x"])]).2
      (by decide) (by decide)⟩

/-- C2 counterexample: the schema `{properties: {}, type: ""}` has a `type`
key, yet normalizeInputSchema rebuilds it (the code tests JavaScript falsiness
of `type`, not presence), moving `type` to the front, so the output is not
structurally identical to the input. -/
theorem claim_type_present_counterexample :
    lookupF [("properties", JSVal.obj []), ("type", JSVal.str "")] "type" =
      some (JSVal.str "") ∧
    normalizeInputSchema
        (.obj [("properties", JSVal.obj []), ("type", JSVal.str "")]) ≠
      .obj [("properties", JSVal.obj []), ("type", JSVal.str "")] := by
  exact ⟨by decide, by decide⟩

/-- C2 (amended): a schema object whose `type` key holds a truthy value (any
non-empty string in particular) is returned unchanged by
normalizeInputSchema; when `type` is present but falsy the schema is rebuilt. -/
theorem claim_truthy_type_unchanged (fields : List (String × JSVal)) (v : JSVal)
    (h1 : lookupF fields "type" = some v) (h2 : truthy v = true) :
    normalizeInputSchema (.obj fields) = .obj fields := by
  apply normalizeInputSchema_of_false
  unfold schemaNeedsNormalization
  have hobjc : ¬(typeofJS (JSVal.obj fields) ≠ "object" ∨
      JSVal.obj fields = .null) := by
    simp [typeofJS]
  rw [if_neg hobjc]
  simp [getProp, h1, h2]

/-- Witness for the amended C2 at `{type: "string"}`. -/
theorem claim_truthy_type_unchanged_witness :
    normalizeInputSchema (.obj [("type", JSVal.str "string")]) =
      .obj [("type", JSVal.str "string")] :=
  claim_truthy_type_unchanged [("type", JSVal.str "string")] (JSVal.str "string")
    (by decide) (by decide)

/-- C3: normalizeInputSchema is idempotent on every value, and applying
normalizeToolsListResponse twice (propagating a thrown error) equals applying
it once. -/
theorem claim_normalization_idem :
    (∀ s, normalizeInputSchema (normalizeInputSchema s) = normalizeInputSchema s) ∧
    (∀ r, (normalizeToolsListResponse r).bind normalizeToolsListResponse =
      normalizeToolsListResponse r) :=
  ⟨normalizeInputSchema_idem, normalizeToolsListResponse_idem⟩

/-- C4 counterexample: `{name: "x", inputSchema: 5}` is an object with a
string `name`, yet normalizeTool throws instead of returning a descriptor. -/
theorem claim_tool_ok_counterexample :
    typeofJS (.obj [("name", JSVal.str "x"), ("inputSchema", JSVal.num 5)]) =
      "object" ∧
    getProp (.obj [("name", JSVal.str "x"), ("inputSchema", JSVal.num 5)])
      "name" = .str "x" ∧
    normalizeTool (.obj [("name", JSVal.str "x"), ("inputSchema", JSVal.num 5)]) =
      .error "Invalid tool \x27x\x27: inputSchema must be an object" := by
  exact ⟨rfl, by decide, by decide⟩

/-- C4 (amended): normalizeTool succeeds exactly on non-null object-typed
values with a string `name` whose `inputSchema`, when present, is itself a
non-null object-typed value; every other input makes it throw. -/
theorem claim_normalizeTool_ok_iff (t : JSVal) :
    exceptOk (normalizeTool t) = true ↔
      (typeofJS t = "object" ∧ t ≠ .null ∧
        (∃ n, getProp t "name" = .str n) ∧
        (getProp t "inputSchema" = .undef ∨
          (typeofJS (getProp t "inputSchema") = "object" ∧
            getProp t "inputSchema" ≠ .null))) := by
  constructor
  · intro h
    cases hv : normalizeTool t with
    | error e => rw [hv] at h; exact absurd h (by simp [exceptOk])
    | ok d =>
      obtain ⟨n, schema, h1, h2, hn, hs, _, _, _, _, _, _⟩ :=
        normalizeTool_ok_inv hv
      exact ⟨h1, h2, ⟨n, hn⟩, hs⟩
  · rintro ⟨h1, h2, ⟨n, hn⟩, hs⟩
    obtain ⟨d, hd⟩ := normalizeTool_ok_of h1 h2 hn hs
    rw [hd]
    rfl

/-- C5 counterexample: the tool `{name: "t", inputSchema: []}` passes
normalizeTool, but the descriptor's inputSchema is the array `[]`, not a
well-formed JSON object map. -/
theorem claim_inputSchema_object_counterexample :
    normalizeTool (.obj [("name", JSVal.str "t"), ("inputSchema", JSVal.arr [])]) =
      .ok (.obj [("name", JSVal.str "t"), ("description", JSVal.undef),
        ("inputSchema", JSVal.arr [])]) ∧
    isObjMap (getProp (.obj [("name", JSVal.str "t"),
      ("description", JSVal.undef), ("inputSchema", JSVal.arr [])])
      "inputSchema") = false := by
  exact ⟨by decide, by decide⟩

/-- C5 (amended): every descriptor returned by normalizeTool carries an
inputSchema that is a defined, non-null, object-typed value (a JSON object or
an array passed through), and a tool without any `inputSchema` field gets
exactly the default `{type: "object", properties: {}}`. -/
theorem claim_inputSchema_invariant (t d : JSVal) (h : normalizeTool t = .ok d) :
    (typeofJS (getProp d "inputSchema") = "object" ∧
      getProp d "inputSchema" ≠ .null ∧ getProp d "inputSchema" ≠ .undef) ∧
    (getProp t "inputSchema" = .undef →
      getProp d "inputSchema" =
        .obj [("type", JSVal.str "object"), ("properties", JSVal.obj [])]) := by
  obtain ⟨n, schema, _, _, _, _, hty, hnn, _, hdef, _, hd⟩ :=
    normalizeTool_ok_inv h
  subst hd
  rw [getProp_mkTool_inputSchema]
  refine ⟨⟨hty, hnn, ?_⟩, fun hu => by rw [hdef hu]; rfl⟩
  intro hh
  rw [hh] at hty
  exact absurd hty (by decide)

/-- Witness for the amended C5 at the tool `{name: "a"}` with no inputSchema. -/
theorem claim_inputSchema_invariant_witness :
    (typeofJS (getProp (JSVal.obj [("name", JSVal.str "a"),
        ("description", JSVal.undef), ("inputSchema", defaultSchema)])
        "inputSchema") = "object" ∧
      getProp (JSVal.obj [("name", JSVal.str "a"), ("description", JSVal.undef),
        ("inputSchema", defaultSchema)]) "inputSchema" ≠ .null ∧
      getProp (JSVal.obj [("name", JSVal.str "a"), ("description", JSVal.undef),
        ("inputSchema", defaultSchema)]) "inputSchema" ≠ .undef) ∧
    (getProp (JSVal.obj [("name", JSVal.str "a")]) "inputSchema" = .undef →
      getProp (JSVal.obj [("name", JSVal.str "a"), ("description", JSVal.undef),
        ("inputSchema", defaultSchema)]) "inputSchema" =
        .obj [("type", JSVal.str "object"), ("properties", JSVal.obj [])]) :=
  claim_inputSchema_invariant (JSVal.obj [("name", JSVal.str "a")])
    (JSVal.obj [("name", JSVal.str "a"), ("description", JSVal.undef),
      ("inputSchema", defaultSchema)]) (by decide)

/-- C6: normalizeToolsListResponse is the identity on non-objects, on error
responses, on responses whose `result` is not an object map, and on results
without a `tools` array; when it rewrites, every top-level key except
`result` and every result-level key except `tools` keeps its value, and both
key lists (hence key order) are unchanged. -/
theorem claim_response_frame :
    (∀ r, isObjMap r = false → normalizeToolsListResponse r = .ok r) ∧
    (∀ r, getProp r "error" ≠ .undef → normalizeToolsListResponse r = .ok r) ∧
    (∀ r, isObjMap (getProp r "result") = false →
      normalizeToolsListResponse r = .ok r) ∧
    (∀ r, (∀ ts, getProp (getProp r "result") "tools" ≠ .arr ts) →
      normalizeToolsListResponse r = .ok r) ∧
    (∀ rf resf ts ds, (keysOf rf).Nodup → (keysOf resf).Nodup →
      getProp (.obj rf) "error" = .undef →
      lookupF rf "result" = some (.obj resf) →
      lookupF resf "tools" = some (.arr ts) →
      mapMTool ts = .ok ds →
      (normalizeToolsListResponse (.obj rf) =
        .ok (.obj (setKey rf "result" (.obj (setKey resf "tools" (.arr ds))))) ∧
      keysOf (setKey rf "result" (.obj (setKey resf "tools" (.arr ds)))) =
        keysOf rf ∧
      (∀ k, k ≠ "result" →
        lookupF (setKey rf "result" (.obj (setKey resf "tools" (.arr ds)))) k =
          lookupF rf k) ∧
      keysOf (setKey resf "tools" (.arr ds)) = keysOf resf ∧
      (∀ k, k ≠ "tools" →
        lookupF (setKey resf "tools" (.arr ds)) k = lookupF resf k))) := by
  refine ⟨?_, ?_, ?_, ?_, ?_⟩
  · intro r hr
    cases r with
    | undef => exact normalizeToolsListResponse_id_c1 (Or.inl (by simp [typeofJS]))
    | null => exact normalizeToolsListResponse_id_c1 (Or.inr rfl)
    | bool b => exact normalizeToolsListResponse_id_c1 (Or.inl (by simp [typeofJS]))
    | num n => exact normalizeToolsListResponse_id_c1 (Or.inl (by simp [typeofJS]))
    | str s => exact normalizeToolsListResponse_id_c1 (Or.inl (by simp [typeofJS]))
    | arr xs =>
      refine normalizeToolsListResponse_id_res (by simp [typeofJS]) ?_ ?_
      · simp [getProp]
      · exact Or.inl (by simp [getProp, typeofJS])
    | obj f => simp [isObjMap] at hr
  · intro r he
    by_cases hc1 : typeofJS r ≠ "object" ∨ r = .null
    · exact normalizeToolsListResponse_id_c1 hc1
    · exact normalizeToolsListResponse_id_err hc1 he
  · intro r hr
    by_cases hc1 : typeofJS r ≠ "object" ∨ r = .null
    · exact normalizeToolsListResponse_id_c1 hc1
    · by_cases hc2 : getProp r "error" ≠ .undef
      · exact normalizeToolsListResponse_id_err hc1 hc2
      · cases hres : getProp r "result" with
        | obj f => rw [hres] at hr; simp [isObjMap] at hr
        | null => exact normalizeToolsListResponse_id_res hc1 hc2 (Or.inr hres)
        | undef =>
          exact normalizeToolsListResponse_id_res hc1 hc2
            (Or.inl (by rw [hres]; simp [typeofJS]))
        | bool b =>
          exact normalizeToolsListResponse_id_res hc1 hc2
            (Or.inl (by rw [hres]; simp [typeofJS]))
        | num n =>
          exact normalizeToolsListResponse_id_res hc1 hc2
            (Or.inl (by rw [hres]; simp [typeofJS]))
        | str s =>
          exact normalizeToolsListResponse_id_res hc1 hc2
            (Or.inl (by rw [hres]; simp [typeofJS]))
        | arr xs =>
          refine normalizeToolsListResponse_id_tools hc1 hc2 ?_ ?_
          · rw [hres]; simp [typeofJS]
          · intro ts hh
            rw [hres] at hh
            simp [getProp] at hh
  · intro r htools
    by_cases hc1 : typeofJS r ≠ "object" ∨ r = .null
    · exact normalizeToolsListResponse_id_c1 hc1
    · by_cases hc2 : getProp r "error" ≠ .undef
      · exact normalizeToolsListResponse_id_err hc1 hc2
      · by_cases hc3 : typeofJS (getProp r "result") ≠ "object" ∨
            getProp r "result" = .null
        · exact normalizeToolsListResponse_id_res hc1 hc2 hc3
        · exact normalizeToolsListResponse_id_tools hc1 hc2 hc3 htools
  · intro rf resf ts ds hndrf hndresf herr hres htl hds
    have hc1 : ¬(typeofJS (JSVal.obj rf) ≠ "object" ∨ JSVal.obj rf = .null) := by
      simp [typeofJS]
    have hc2 : ¬(getProp (JSVal.obj rf) "error" ≠ .undef) := by
      rw [herr]; simp
    have hresget : getProp (JSVal.obj rf) "result" = .obj resf := by
      simp [getProp, hres]
    have hc3 : ¬(typeofJS (getProp (JSVal.obj rf) "result") ≠ "object" ∨
        getProp (JSVal.obj rf) "result" = .null) := by
      rw [hresget]; simp [typeofJS]
    have htoolsget : getProp (getProp (JSVal.obj rf) "result") "tools" =
        .arr ts := by
      rw [hresget]; simp [getProp, htl]
    have h1 := normalizeToolsListResponse_rewrite hc1 hc2 hc3 htoolsget hds
    have hmemr : "result" ∈ keysOf rf := lookupF_mem_keysOf hres
    have hmemt : "tools" ∈ keysOf resf := lookupF_mem_keysOf htl
    refine ⟨?_, ?_, ?_, ?_, ?_⟩
    · rw [h1]
      congr 1
      rw [hresget]
      simp only [entriesOf]
      rw [spreadF_nil_base hndrf, spreadF_nil_base hndresf]
    · rw [keysOf_setKey]; simp [hmemr]
    · intro k hk
      exact lookupF_setKey_other rf _ hk
    · rw [keysOf_setKey]; simp [hmemt]
    · intro k hk
      exact lookupF_setKey_other resf _ hk

/-- Witness for C6: a rewrite on a response with extra top-level and
result-level fields. -/
theorem claim_response_frame_witness :
    normalizeToolsListResponse (.obj [("jsonrpc", JSVal.str "2.0"),
      ("id", JSVal.num 7),
      ("result", JSVal.obj [("tools", JSVal.arr []), ("cursor", JSVal.num 3)]),
      ("meta", JSVal.str "m")]) =
      .ok (.obj (setKey [("jsonrpc", JSVal.str "2.0"), ("id", JSVal.num 7),
        ("result", JSVal.obj [("tools", JSVal.arr []), ("cursor", JSVal.num 3)]),
        ("meta", JSVal.str "m")] "result"
        (.obj (setKey [("tools", JSVal.arr []), ("cursor", JSVal.num 3)]
          "tools" (.arr []))))) :=
  (claim_response_frame.2.2.2.2 [("jsonrpc", JSVal.str "2.0"), ("id", JSVal.num 7),
    ("result", JSVal.obj [("tools", JSVal.arr []), ("cursor", JSVal.num 3)]),
    ("meta", JSVal.str "m")]
    [("tools", JSVal.arr []), ("cursor", JSVal.num 3)] [] []
    (by decide) (by decide) (by decide) (by decide) (by decide) (by decide)).1

/-- C7: normalizeTools yields the empty list on every non-array input and maps
normalizeTool element-wise over arrays, preserving order and count on
success. -/
theorem claim_normalizeTools_elementwise :
    (∀ v, isArrVal v = false → normalizeTools v = .ok []) ∧
    (∀ ts, normalizeTools (.arr ts) = mapMTool ts) ∧
    (∀ ts ds, mapMTool ts = .ok ds →
      ds.length = ts.length ∧
      ∀ i, i < ts.length →
        normalizeTool (ts.getD i .undef) = .ok (ds.getD i .undef)) := by
  refine ⟨?_, fun ts => rfl, fun ts ds h => mapMTool_length_get h⟩
  intro v hv
  cases v with
  | arr xs => simp [isArrVal] at hv
  | undef => rfl
  | null => rfl
  | bool b => rfl
  | num n => rfl
  | str s => rfl
  | obj f => rfl

/-- Witness for C7 on a non-array input and a one-element array. -/
theorem claim_normalizeTools_elementwise_witness :
    normalizeTools (JSVal.num 3) = .ok [] ∧
    ([JSVal.obj [("name", JSVal.str "a"), ("description", JSVal.undef),
      ("inputSchema", defaultSchema)]].length =
      [JSVal.obj [("name", JSVal.str "a")]].length ∧
      ∀ i, i < [JSVal.obj [("name", JSVal.str "a")]].length →
        normalizeTool ([JSVal.obj [("name", JSVal.str "a")]].getD i .undef) =
          .ok ([JSVal.obj [("name", JSVal.str "a"), ("description", JSVal.undef),
            ("inputSchema", defaultSchema)]].getD i .undef)) :=
  ⟨claim_normalizeTools_elementwise.1 (JSVal.num 3) (by decide),
    claim_normalizeTools_elementwise.2.2 [JSVal.obj [("name", JSVal.str "a")]]
      [JSVal.obj [("name", JSVal.str "a"), ("description", JSVal.undef),
        ("inputSchema", defaultSchema)]] (by decide)⟩

/-- C8 counterexample: the message `{method: ""}` has a method that is neither
`tools/list` nor `tools/call`, yet the router replies with the 400
missing-method error (`-32600`), not with a 501 not-implemented reply,
because the code tests JavaScript falsiness of `method`. -/
theorem claim_unknown_method_counterexample :
    getProp (.obj [("method", JSVal.str "")]) "method" ≠ .str "tools/list" ∧
    getProp (.obj [("method", JSVal.str "")]) "method" ≠ .str "tools/call" ∧
    handleMessage stubUpstream true true (.obj [("method", JSVal.str "")]) =
      ⟨⟨400, jsonRpcError (-32600) "Missing method field" JSVal.null⟩, [], []⟩ ∧
    (handleMessage stubUpstream true true
      (.obj [("method", JSVal.str "")])).reply.status ≠ 501 := by
  exact ⟨by decide, by decide, by decide, by decide⟩

/-- C8 (amended): for a resolved session and a well-formed message whose
method is truthy and neither `tools/list` nor `tools/call`, the router makes
no upstream call, writes nothing to the streaming channel, and replies
synchronously with the 501 not-implemented error (`-32601`). -/
theorem claim_unknown_method_reply (up : Upstream) (message : JSVal)
    (h1 : truthy message = true) (h2 : typeofJS message = "object")
    (h3 : truthy (getProp message "method") = true)
    (h4 : getProp message "method" ≠ .str "tools/list")
    (h5 : getProp message "method" ≠ .str "tools/call") :
    handleMessage up true true message =
      ⟨⟨501, jsonRpcError (-32601)
        ("Method not implemented: " ++ jsToString (getProp message "method"))
        (idOrNull (getProp message "id"))⟩, [], []⟩ := by
  unfold handleMessage
  rw [if_neg (by simp : ¬(true = false)), if_neg (by simp : ¬(true = false)),
    if_neg (by simp [h1, h2]), if_neg (by simp [h3]), if_neg h4, if_neg h5]

/-- Witness for the amended C8 at method `foo/bar`. -/
theorem claim_unknown_method_reply_witness :
    handleMessage stubUpstream true true (.obj [("method", JSVal.str "foo/bar")]) =
      ⟨⟨501, jsonRpcError (-32601) "Method not implemented: foo/bar"
        JSVal.null⟩, [], []⟩ := by
  have h := claim_unknown_method_reply stubUpstream
    (.obj [("method", JSVal.str "foo/bar")])
    (by decide) (by decide) (by decide) (by decide) (by decide)
  exact h

/-- C9 counterexample: when the upstream `tools/list` call throws, the router
does push the `-32603` error over the streaming channel, but the synchronous
caller receives a 500 `{status: "error"}` reply, not the `accepted`
acknowledgment the claim promises it already had. -/
theorem claim_upstream_error_counterexample :
    handleMessage failingUpstream true true
      (.obj [("method", JSVal.str "tools/list"), ("id", JSVal.num 1)]) =
      ⟨⟨500, .obj [("status", JSVal.str "error"), ("message", JSVal.str "boom")]⟩,
       [.obj [("jsonrpc", JSVal.str "2.0"), ("id", JSVal.num 1),
         ("error", JSVal.obj [("code", JSVal.num (-32603)),
           ("message", JSVal.str "Internal error: boom")])]],
       [.listTools]⟩ ∧
    (handleMessage failingUpstream true true
      (.obj [("method", JSVal.str "tools/list"),
        ("id", JSVal.num 1)])).reply.status ≠ 202 := by
  exact ⟨by decide, by decide⟩

/-- C9 (amended): an error thrown while executing `tools/list` or `tools/call`
is delivered through the session's streaming channel as a JSON-RPC error with
code `-32603` whose message embeds the upstream failure text, and the
synchronous caller receives a 500 `{status: "error"}` reply; the `accepted`
acknowledgment is sent only after the upstream call succeeds. -/
theorem claim_upstream_error_channel (up : Upstream) (message : JSVal)
    (e : String) (h1 : truthy message = true)
    (h2 : typeofJS message = "object") :
    (getProp message "method" = .str "tools/list" →
      up.listToolsResult = .error e →
      handleMessage up true true message =
        ⟨⟨500, .obj [("status", JSVal.str "error"), ("message", JSVal.str e)]⟩,
         [.obj [("jsonrpc", JSVal.str "2.0"), ("id", getProp message "id"),
           ("error", JSVal.obj [("code", JSVal.num (-32603)),
             ("message", JSVal.str ("Internal error: " ++ e))])]],
         [.listTools]⟩) ∧
    (getProp message "method" = .str "tools/call" →
      up.callToolResult (getProp message "params") = .error e →
      handleMessage up true true message =
        ⟨⟨500, .obj [("status", JSVal.str "error"), ("message", JSVal.str e)]⟩,
         [.obj [("jsonrpc", JSVal.str "2.0"), ("id", getProp message "id"),
           ("error", JSVal.obj [("code", JSVal.num (-32603)),
             ("message", JSVal.str ("Internal error: " ++ e))])]],
         [.callTool (getProp message "params")]⟩) := by
  constructor
  · intro hm he
    have h3 : ¬(truthy (getProp message "method") = false) := by
      rw [hm]; decide
    unfold handleMessage
    rw [if_neg (by simp : ¬(true = false)), if_neg (by simp : ¬(true = false)),
      if_neg (by simp [h1, h2]), if_neg h3, if_pos hm]
    simp only [he]
    rfl
  · intro hm he
    have h3 : ¬(truthy (getProp message "method") = false) := by
      rw [hm]; decide
    have h4 : ¬(getProp message "method" = .str "tools/list") := by
      rw [hm]; decide
    unfold handleMessage
    rw [if_neg (by simp : ¬(true = false)), if_neg (by simp : ¬(true = false)),
      if_neg (by simp [h1, h2]), if_neg h3, if_neg h4, if_pos hm]
    simp only [he]
    rfl

/-- Witness for the amended C9 on a failing `tools/call`. -/
theorem claim_upstream_error_channel_witness :
    handleMessage failingUpstream true true
      (.obj [("method", JSVal.str "tools/call"), ("id", JSVal.num 2)]) =
      ⟨⟨500, .obj [("status", JSVal.str "error"), ("message", JSVal.str "boom")]⟩,
       [.obj [("jsonrpc", JSVal.str "2.0"), ("id", JSVal.num 2),
         ("error", JSVal.obj [("code", JSVal.num (-32603)),
           ("message", JSVal.str "Internal error: boom")])]],
       [.callTool JSVal.undef]⟩ :=
  (claim_upstream_error_channel failingUpstream
    (.obj [("method", JSVal.str "tools/call"), ("id", JSVal.num 2)]) "boom"
    (by decide) (by decide)).2 (by decide) (by decide)

/-- C10: when a tool's `description` field is present but not a string,
normalizeTool returns a descriptor whose `description` is `undefined`: the
non-string value is discarded because `description` is excluded from the
passthrough of additional fields. -/
theorem claim_nonstring_description_dropped (t d : JSVal)
    (h : normalizeTool t = .ok d)
    (h2 : isStr (getProp t "description") = false) :
    getProp d "description" = .undef := by
  obtain ⟨n, schema, _, _, _, _, _, _, _, _, _, hd⟩ := normalizeTool_ok_inv h
  subst hd
  rw [getProp_mkTool_description]
  unfold descOf
  cases hv : getProp t "description" with
  | str s => rw [hv] at h2; simp [isStr] at h2
  | undef => rfl
  | null => rfl
  | bool b => rfl
  | num m => rfl
  | arr xs => rfl
  | obj f => rfl

/-- Witness for C10 at the tool `{name: "a", description: 7}`. -/
theorem claim_nonstring_description_dropped_witness :
    getProp (JSVal.obj [("name", JSVal.str "a"), ("description", JSVal.undef),
      ("inputSchema", defaultSchema)]) "description" = .undef :=
  claim_nonstring_description_dropped
    (.obj [("name", JSVal.str "a"), ("description", JSVal.num 7)])
    (.obj [("name", JSVal.str "a"), ("description", JSVal.undef),
      ("inputSchema", defaultSchema)])
    (by decide) (by decide)
